import Mathlib

/-
Shallow embedding of the Veloma gesture-to-music control engine,
src/app/music/__init__.py (class VelomaInstrument).  Python floats are
modelled as rationals; backend note objects are modelled as natural-number
voice handles; backend commands are modelled as an explicit event trace.
-/

namespace Veloma

/-- One tracked hand, as produced by the vision collaborator
(src/app/vision/__init__.py lines 122-131): a palm center (x, y), plus the
rightmost landmark x and a trigger-gesture flag that the music engine never
reads (update_from_vision uses only palm_center). -/
structure Hand where
  palm_x : ℚ
  palm_y : ℚ
  rightmost_x : ℚ
deriving DecidableEq

/-- Mutable fields of VelomaInstrument that the modelled methods touch
(lines 44, 59-76, 104-111).  pitch_range_lo/hi mirror the stored tuple
self.pitch_range computed once in the constructor (line 76).  next_handle
models the backend allocating a fresh note object per start_note call. -/
structure EngineState where
  pc : ℤ
  current_pitch : ℚ
  current_volume : ℚ
  target_pitch : ℚ
  target_volume : ℚ
  current_notes : List ℕ
  next_handle : ℕ
  is_note_playing : Bool
  glide_mode : Bool
  start_key : ℚ
  octave_range : ℕ
  pitch_range_lo : ℚ
  pitch_range_hi : ℚ
  pitch_pool : List ℚ
  hands_detected : Bool
deriving DecidableEq

/-- self.num_amplified_notes = 3 (line 65); never reassigned. -/
def num_amplified_notes : ℕ := 3

/-- self.min_volume_threshold = 0.3 (line 111); never reassigned. -/
def min_volume_threshold : ℚ := 3 / 10

/-- self.pitch_smoothing = 1 (line 104); never reassigned. -/
def pitch_smoothing : ℚ := 1

/-- self.volume_smoothing = 1 (line 105); never reassigned. -/
def volume_smoothing : ℚ := 1

/-- _map_range (lines 324-333) on the non-degenerate path: clamp the value
with max(in_min, min(in_max, value)), then interpolate linearly. -/
def map_range_total (value in_min in_max out_min out_max : ℚ) : ℚ :=
  out_min + (max in_min (min in_max value) - in_min) * (out_max - out_min) / (in_max - in_min)

/-- _map_range as actually executed by Python: when in_max == in_min the
final division is a float division by zero and raises ZeroDivisionError,
modelled as none.  Otherwise it returns map_range_total. -/
def map_range (value in_min in_max out_min out_max : ℚ) : Option ℚ :=
  if in_max - in_min = 0 then none
  else some (map_range_total value in_min in_max out_min out_max)

/-- Python 3 round() (banker's rounding, round half to even), as used at
lines 196 and 224: int(round(mapped_index_float)). -/
def pyRound (q : ℚ) : ℤ :=
  if q - (⌊q⌋ : ℚ) = 1 / 2 then
    if ⌊q⌋ % 2 = 0 then ⌊q⌋ else ⌊q⌋ + 1
  else round q

/-- Python list indexing, pool[i]: negative indices count from the end;
an index out of range raises IndexError, modelled as none. -/
def py_get (l : List ℚ) (i : ℤ) : Option ℚ :=
  let j := if i < 0 then (l.length : ℤ) + i else i
  if 0 ≤ j then l.get? j.toNat else none

/-- Discrete-mode pool index (lines 195-196 and 223-224):
int(round(_map_range(x, 0.5, 1.0, 0, len(pitch_pool) - 1))).
The in-range 0.5 to 1.0 never degenerates, so the total map applies. -/
def discrete_index (x : ℚ) (poolLen : ℕ) : ℤ :=
  pyRound (map_range_total x (1 / 2) 1 0 ((poolLen : ℚ) - 1))

/-- Quantizer written from the words of the spec (section 4.2), for
comparison with the code's discrete_index: if position < regionStart return
NONE, else clamp, divide the region into poolSize blocks, floor, clamp the
index into 0 .. poolSize - 1. -/
def quantize_spec (position regionStart regionEnd : ℚ) (poolSize : ℕ) : Option ℤ :=
  if position < regionStart then none
  else
    let clampedPos := max regionStart (min regionEnd position)
    let blockWidth := (regionEnd - regionStart) / (poolSize : ℚ)
    some (max 0 (min (⌊(clampedPos - regionStart) / blockWidth⌋) ((poolSize : ℤ) - 1)))

/-- _generate_pitch_pool (lines 315-318), chromatic branch:
[start_key + i for i in range(octave_range * 12 + 1)]. -/
def generate_pitch_pool_chromatic (start_key : ℚ) (octave_range : ℕ) : List ℚ :=
  (List.range (octave_range * 12 + 1)).map (fun i : ℕ => start_key + (i : ℚ))

/-- Role assignment for two hands (lines 205-210): the hand with the larger
palm x becomes right_hand (pitch), the other left_hand (volume); on a tie
the else branch makes hands[1] the right hand. -/
def assign_roles (h0 h1 : Hand) : Hand × Hand :=
  if h0.palm_x > h1.palm_x then (h0, h1) else (h1, h0)

/-- update_from_vision (lines 135-233).  Absent or empty hand data only
clears hands_detected (lines 141-144).  Otherwise hands_detected is set,
the periodic-log counter pc advances (lines 149-151; the log block at
lines 152-183 only prints and may fork play_gesture, touching no engine
field), the first hand sets the targets (lines 184-202), and a second hand
overrides both targets through the role assignment (lines 204-233).  The
discrete pool access pool[idx] would raise IndexError out of range; the
getD default is shown unreachable for non-empty pools by the index-bounds
theorems below. -/
def update_from_vision (s : EngineState) (hand_data : Option (List Hand)) : EngineState :=
  match hand_data with
  | none => { s with hands_detected := false }
  | some [] => { s with hands_detected := false }
  | some (h0 :: rest) =>
    let s1 := { s with hands_detected := true,
                       pc := (if s.pc + 1 > 37 then 0 else s.pc + 1) }
    let s2 :=
      if s1.glide_mode then
        { s1 with target_pitch :=
            map_range_total h0.palm_x (1 / 2) 1 s1.pitch_range_lo s1.pitch_range_hi }
      else
        { s1 with target_pitch :=
            ((py_get s1.pitch_pool (discrete_index h0.palm_x s1.pitch_pool.length)).getD
              s1.target_pitch) }
    let s3 := { s2 with target_volume := map_range_total (1 - h0.palm_y) 0 (1 / 2) 0 1 }
    match rest with
    | [] => s3
    | h1 :: _ =>
      let roles := assign_roles h0 h1
      let s4 :=
        if s3.glide_mode then
          { s3 with target_pitch :=
              map_range_total roles.1.palm_x (1 / 2) 1 s3.pitch_range_lo s3.pitch_range_hi }
        else
          { s3 with target_pitch :=
              ((py_get s3.pitch_pool (discrete_index roles.1.palm_x s3.pitch_pool.length)).getD
                s3.target_pitch) }
      { s4 with target_volume := map_range_total (1 - roles.2.palm_y) 0 (1 / 2) 0 1 }

/-- _smooth_value (lines 335-338): current + (target - current) * smoothing. -/
def _smooth_value (current target smoothing : ℚ) : ℚ :=
  current + (target - current) * smoothing

/-- n applications of _smooth_value toward a constant target. -/
def smoothN (c t f : ℚ) : ℕ → ℚ
  | 0 => c
  | n + 1 => _smooth_value (smoothN c t f n) t f

/-- Commands the engine sends to the SCAMP backend.  startNote, changePitch,
changeVolume, endNote, endAllNotes and midiCC correspond to start_note,
change_pitch, change_volume, end, end_all_notes and send_midi_cc;
playMomentary corresponds to play_note (used only by play_gesture,
lines 308-313, never by the audio loop). -/
inductive AudioEvent where
  | startNote (handle : ℕ) (pitch volume : ℚ)
  | changePitch (handle : ℕ) (pitch : ℚ)
  | changeVolume (handle : ℕ) (volume : ℚ)
  | endNote (handle : ℕ)
  | endAllNotes
  | midiCC (cc value : ℕ)
  | playMomentary (pitch volume : ℚ) (duration : ℚ)
deriving DecidableEq

def isStartEv : AudioEvent → Bool
  | AudioEvent.startNote _ _ _ => true
  | _ => false

def isEndEv : AudioEvent → Bool
  | AudioEvent.endNote _ => true
  | AudioEvent.endAllNotes => true
  | _ => false

def isMomentaryEv : AudioEvent → Bool
  | AudioEvent.playMomentary _ _ _ => true
  | _ => false

/-- play_gesture (lines 308-313): play_note for each step (the loop bound is
the length of the arpeggio entry, a quirk of the source), then end_all_notes.
Grounds the playMomentary constructor; the audio loop never emits it. -/
def play_gesture_events (current_volume : ℚ) (gesture : List ℚ) : List AudioEvent :=
  (List.range 5).map (fun i => AudioEvent.playMomentary (gesture.getD i 0) current_volume 1)
    ++ [AudioEvent.endAllNotes]

/-- The change_pitch and change_volume pair issued per held note by
_update_note_parameters (lines 281-283). -/
def update_events (notes : List ℕ) (p v : ℚ) : List AudioEvent :=
  match notes with
  | [] => []
  | h :: t => AudioEvent.changePitch h p :: AudioEvent.changeVolume h v :: update_events t p v

/-- _stop_current_note (lines 288-301).  failEnd models the backend raising
inside note.end(): none (or an index past the list) means every end()
succeeds (try branch: end every note, clear, flag off, sustain cc);
some k < length means the end() of note k raises, after which the except
branch clears the list, resets the flag and calls end_all_notes. -/
def _stop_current_note (failEnd : Option ℕ) (s : EngineState) : EngineState × List AudioEvent :=
  if s.current_notes ≠ [] ∧ s.is_note_playing = true then
    match failEnd with
    | none =>
      ({ s with current_notes := [], is_note_playing := false },
       s.current_notes.map AudioEvent.endNote ++ [AudioEvent.midiCC 64 0])
    | some k =>
      if k < s.current_notes.length then
        ({ s with current_notes := [], is_note_playing := false },
         (s.current_notes.take k).map AudioEvent.endNote ++ [AudioEvent.endAllNotes])
      else
        ({ s with current_notes := [], is_note_playing := false },
         s.current_notes.map AudioEvent.endNote ++ [AudioEvent.midiCC 64 0])
  else (s, [])

/-- _update_note_parameters (lines 277-286).  failUpd models the backend
raising: none means every change succeeds (state unchanged); some (k, st)
with k < length means the update of note k raises (st = true: change_pitch
succeeded and change_volume raised), after which the except branch calls
_stop_current_note.  The Python method catches every exception, so the
model is a total function: nothing propagates to the caller. -/
def _update_note_parameters (failUpd : Option (ℕ × Bool)) (failEnd : Option ℕ)
    (s : EngineState) : EngineState × List AudioEvent :=
  if s.current_notes ≠ [] ∧ s.is_note_playing = true then
    match failUpd with
    | none => (s, update_events s.current_notes s.current_pitch s.current_volume)
    | some (k, st) =>
      if k < s.current_notes.length then
        ((_stop_current_note failEnd s).1,
         update_events (s.current_notes.take k) s.current_pitch s.current_volume
           ++ (if st then [AudioEvent.changePitch (s.current_notes.getD k 0) s.current_pitch]
               else [])
           ++ (_stop_current_note failEnd s).2)
      else (s, update_events s.current_notes s.current_pitch s.current_volume)
  else (s, [])

/-- _start_continuous_note (lines 266-275): reset the list, start
num_amplified_notes notes at the current pitch and volume, record the
returned handles, set is_note_playing. -/
def _start_continuous_note (s : EngineState) : EngineState × List AudioEvent :=
  let notes := (List.range num_amplified_notes).map (fun i => s.next_handle + i)
  ({ s with current_notes := notes,
            next_handle := s.next_handle + num_amplified_notes,
            is_note_playing := true },
   notes.map (fun h => AudioEvent.startNote h s.current_pitch s.current_volume))

/-- The smoothing step at the top of each loop iteration (lines 241-246). -/
def tick_smoothed (s : EngineState) : EngineState :=
  { s with current_pitch := _smooth_value s.current_pitch s.target_pitch pitch_smoothing,
           current_volume := _smooth_value s.current_volume s.target_volume volume_smoothing }

/-- should_play (lines 248-250): hands_detected and current_volume above the
threshold. -/
def should_play (hands_detected : Bool) (current_volume : ℚ) : Bool :=
  hands_detected && (if min_volume_threshold < current_volume then true else false)

/-- One iteration of _audio_loop (lines 239-261): smooth, evaluate the gate,
then start, update, or stop.  The loop reads no mode flag: Glide and
Discrete share this body. -/
def loop_tick (failUpd : Option (ℕ × Bool)) (failEnd : Option ℕ)
    (s : EngineState) : EngineState × List AudioEvent :=
  if should_play (tick_smoothed s).hands_detected (tick_smoothed s).current_volume then
    if (tick_smoothed s).is_note_playing = false then _start_continuous_note (tick_smoothed s)
    else _update_note_parameters failUpd failEnd (tick_smoothed s)
  else
    if (tick_smoothed s).is_note_playing = true then _stop_current_note failEnd (tick_smoothed s)
    else (tick_smoothed s, [])

/-- Target values the vision thread may write between two loop iterations
(update_from_vision runs concurrently; last write wins). -/
structure TickInput where
  hands_detected : Bool
  target_pitch : ℚ
  target_volume : ℚ
deriving DecidableEq

/-- One scheduled loop iteration: an optional concurrent target write,
plus the backend failure pattern for this iteration. -/
structure TickSpec where
  write : Option TickInput
  failUpd : Option (ℕ × Bool)
  failEnd : Option ℕ
deriving DecidableEq

def apply_write : Option TickInput → EngineState → EngineState
  | none, s => s
  | some w, s => { s with hands_detected := w.hands_detected,
                          target_pitch := w.target_pitch,
                          target_volume := w.target_volume }

def loop_step (t : TickSpec) (s : EngineState) : EngineState × List AudioEvent :=
  loop_tick t.failUpd t.failEnd (apply_write t.write s)

/-- A run of the audio loop: the final state and the per-iteration event
lists. -/
def loop_run (s : EngineState) : List TickSpec → EngineState × List (List AudioEvent)
  | [] => (s, [])
  | t :: ts =>
    let r := loop_step t s
    let rest := loop_run r.1 ts
    (rest.1, r.2 :: rest.2)

/-- Burst markers: S for an iteration that issued start_note calls, E for
one that issued end calls. -/
inductive Marker where
  | S
  | E
deriving DecidableEq

def tickMarker (evs : List AudioEvent) : Option Marker :=
  if evs.any isStartEv then some Marker.S
  else if evs.any isEndEv then some Marker.E
  else none

def markers (evss : List (List AudioEvent)) : List Marker :=
  evss.filterMap tickMarker

/-- alternates b ms holds when, reading ms left to right starting from
playing-state b, S appears only while silent and E only while sounding:
bursts strictly alternate. -/
def alternates : Bool → List Marker → Bool
  | _, [] => true
  | false, Marker.S :: r => alternates true r
  | false, Marker.E :: _ => false
  | true, Marker.E :: r => alternates false r
  | true, Marker.S :: _ => false

def countMomentary (evss : List (List AudioEvent)) : ℕ :=
  (evss.map (fun evs => evs.countP (fun e => isMomentaryEv e))).sum

/-- A concrete engine state for witnesses: the constructor state after
set_scale to chromatic, with glide mode on. -/
def sampleState : EngineState :=
  { pc := 0
    current_pitch := 60
    current_volume := 1 / 2
    target_pitch := 60
    target_volume := 1 / 2
    current_notes := []
    next_handle := 0
    is_note_playing := false
    glide_mode := true
    start_key := 60
    octave_range := 2
    pitch_range_lo := 60
    pitch_range_hi := 84
    pitch_pool := generate_pitch_pool_chromatic 60 2
    hands_detected := false }

/-- sampleState with discrete (non-glide) mode, as after toggling glide off. -/
def sampleStateDiscrete : EngineState :=
  { sampleState with glide_mode := false }

/-- sampleState after the vision thread reports hands with full volume. -/
def sGate : EngineState :=
  { sampleState with hands_detected := true, target_volume := 1 }

/-- A sounding state: three voices held, gate satisfied. -/
def sSound : EngineState :=
  { sGate with is_note_playing := true, current_notes := [0, 1, 2], next_handle := 3,
               current_volume := 1 }

/-- Three scheduled iterations: hands appear with volume 1, nothing changes,
then volume drops to 0 — the Glide end-to-end scenario of the spec. -/
def demoTicks : List TickSpec :=
  [⟨some ⟨true, 60, 1⟩, none, none⟩,
   ⟨none, none, none⟩,
   ⟨some ⟨true, 60, 0⟩, none, none⟩]

/-- Discrete-mode iterations with quantized-pitch changes at the first,
second and fourth ticks (the cooldown scenario of the spec: index-change
events at t = 0.0 and t = 0.05, then a later event at t = 0.25). -/
def discTicks : List TickSpec :=
  [⟨some ⟨true, 60, 1⟩, none, none⟩,
   ⟨some ⟨true, 62, 1⟩, none, none⟩,
   ⟨none, none, none⟩,
   ⟨some ⟨true, 64, 1⟩, none, none⟩]

/- Helper lemmas about the Python rounding function. -/

lemma pyRound_intCast (z : ℤ) : pyRound (z : ℚ) = z := by
  have h : ((z : ℚ) - ((⌊(z : ℚ)⌋ : ℤ) : ℚ)) ≠ 1 / 2 := by
    rw [Int.floor_intCast]
    norm_num
  unfold pyRound
  rw [if_neg h, round_intCast]

lemma pyRound_nonneg {q : ℚ} (h : 0 ≤ q) : 0 ≤ pyRound q := by
  unfold pyRound
  split
  · rename_i hh
    have h1 : ((-1 : ℤ) : ℚ) < (⌊q⌋ : ℚ) := by push_cast; linarith
    have h2 : (-1 : ℤ) < ⌊q⌋ := by exact_mod_cast h1
    split
    · omega
    · omega
  · rw [round_eq]
    exact Int.le_floor.mpr (by push_cast; linarith)

lemma pyRound_le {q : ℚ} {m : ℤ} (h : q ≤ (m : ℚ)) : pyRound q ≤ m := by
  unfold pyRound
  split
  · rename_i hh
    have h1 : (⌊q⌋ : ℚ) < (m : ℚ) := by linarith
    have h2 : ⌊q⌋ < m := by exact_mod_cast h1
    split
    · omega
    · omega
  · rw [round_eq]
    have hlt : ⌊q + 1 / 2⌋ < m + 1 := by
      apply Int.floor_lt.mpr
      push_cast
      linarith
    omega

/-- C5 counterexample: the claim says mapRange with inMin == inMax returns
outMin and performs no division by zero; in the code the division
(value - in_min) * (out_max - out_min) / (in_max - in_min) is then a float
division by zero, which Python raises as ZeroDivisionError (modelled as
none), so the call does not return outMin = 3. -/
theorem map_range_degenerate_counterexample :
    map_range 0 (1 / 2) (1 / 2) 3 7 = none := by
  norm_num [map_range]

/-- C5 amended: for every input value and all output bounds, calling
mapRange with inMin == inMax raises ZeroDivisionError (modelled as none)
instead of returning outMin; the function has no degenerate-range guard. -/
theorem map_range_degenerate_raises :
    ∀ (value a out_min out_max : ℚ), map_range value a a out_min out_max = none := by
  intro value a out_min out_max
  simp [map_range]

/-- C8: an update with missing hand data, or with an empty hands list, only
sets handsDetected to false; every other field of the engine state — in
particular targetPitch and targetVolume — is left exactly unchanged. -/
theorem missing_hands_freeze_targets :
    ∀ s : EngineState,
      update_from_vision s none = { s with hands_detected := false }
      ∧ update_from_vision s (some []) = { s with hands_detected := false } := by
  intro s
  exact ⟨rfl, rfl⟩

/-- C4: one smoother tick computes current + (target - current) * f; with
f = 1 the current value reaches the target after exactly one tick, and for
any f in (0, 1] and constant target, after n ticks the distance to the
target is the initial distance times (1 - f)^n. -/
theorem smoother_single_pole :
    ∀ (c t f : ℚ), 0 < f → f ≤ 1 →
      (∀ n : ℕ, |smoothN c t f n - t| = |c - t| * (1 - f) ^ n)
      ∧ smoothN c t f 1 = c + (t - c) * f
      ∧ (f = 1 → smoothN c t f 1 = t) := by
  intro c t f hf0 hf1
  refine ⟨?_, ?_, ?_⟩
  · intro n
    induction n with
    | zero => simp [smoothN]
    | succ n ih =>
      have h1 : smoothN c t f (n + 1) - t = (smoothN c t f n - t) * (1 - f) := by
        simp only [smoothN, _smooth_value]
        ring
      rw [h1, abs_mul, ih, abs_of_nonneg (by linarith : (0 : ℚ) ≤ 1 - f)]
      ring
  · simp [smoothN, _smooth_value]
  · intro h
    simp [smoothN, _smooth_value, h]

/-- C4 witness: with initial value 5, target 1 and factor 1/2, the distance
after 2 ticks is the initial distance times (1/2)^2. -/
theorem smoother_single_pole_witness :
    |smoothN 5 1 (1 / 2) 2 - 1| = |(5 : ℚ) - 1| * (1 - 1 / 2) ^ 2 :=
  (smoother_single_pole 5 1 (1 / 2) (by norm_num) (by norm_num)).1 2

/-- C9: the chromatic pitch pool is rootKey + i for i = 0 .. octaveRange*12
inclusive — octaveRange*12 + 1 strictly ascending entries — and for
rootKey 60, octaveRange 1 it is exactly [60, 61, ..., 72]. -/
theorem chromatic_pool :
    ∀ (rootKey : ℚ) (octaveRange : ℕ), 1 ≤ octaveRange →
      (generate_pitch_pool_chromatic rootKey octaveRange).length = octaveRange * 12 + 1
      ∧ (∀ (i : ℕ) (h : i < (generate_pitch_pool_chromatic rootKey octaveRange).length),
          (generate_pitch_pool_chromatic rootKey octaveRange).get ⟨i, h⟩ = rootKey + i)
      ∧ List.Pairwise (fun a b => a < b) (generate_pitch_pool_chromatic rootKey octaveRange)
      ∧ generate_pitch_pool_chromatic 60 1
          = [60, 61, 62, 63, 64, 65, 66, 67, 68, 69, 70, 71, 72] := by
  intro rootKey octaveRange _
  refine ⟨?_, ?_, ?_, ?_⟩
  · rw [generate_pitch_pool_chromatic, List.length_map, List.length_range]
  · intro i h
    simp only [generate_pitch_pool_chromatic, List.get_eq_getElem, List.getElem_map,
      List.getElem_range]
  · rw [generate_pitch_pool_chromatic, List.pairwise_map]
    refine (List.pairwise_lt_range _).imp ?_
    intro a b hab
    have hq : (a : ℚ) < b := by exact_mod_cast hab
    linarith
  · norm_num [generate_pitch_pool_chromatic, List.range_succ]

/-- C9 witness: instantiated at rootKey 60, octaveRange 1: 13 entries and
the concrete chromatic list. -/
theorem chromatic_pool_witness :
    (generate_pitch_pool_chromatic 60 1).length = 1 * 12 + 1
    ∧ generate_pitch_pool_chromatic 60 1
        = [60, 61, 62, 63, 64, 65, 66, 67, 68, 69, 70, 71, 72] :=
  ⟨(chromatic_pool 60 1 (by norm_num)).1, (chromatic_pool 60 1 (by norm_num)).2.2.2⟩

/-- C2 counterexample: the claim says position 0.4 with region start 0.5
yields NONE (deliberate silence) and, with region [0.5, 0.9] and pool size
8, position 0.89999 yields 7.  The spec-worded quantizer does behave that
way, but the code has no NONE path and no region parameter: it clamps into
the fixed region [0.5, 1.0] and rounds, so position 0.4 yields index 0 (a
genuine note) and position 0.89999 yields index 6, not 7. -/
theorem quantize_none_counterexample :
    quantize_spec (2 / 5) (1 / 2) (9 / 10) 8 = none
    ∧ discrete_index (2 / 5) 8 = 0
    ∧ quantize_spec (89999 / 100000) (1 / 2) (9 / 10) 8 = some 7
    ∧ discrete_index (89999 / 100000) 8 = 6 := by
  refine ⟨by norm_num [quantize_spec], ?_, ?_, ?_⟩
  · norm_num [discrete_index, map_range_total, pyRound, min_def, max_def]
  · norm_num [quantize_spec, min_def, max_def]
  · norm_num [discrete_index, map_range_total, pyRound, min_def, max_def, round_eq]

/-- C2 amended: Discrete-mode quantization never returns NONE.  The code
clamps the position into the fixed region [0.5, 1.0] and returns
round((clamped - 0.5) / 0.5 * (poolSize - 1)) with banker's rounding: every
position at or left of 0.5 yields index 0 (not silence), and every position
at or right of 1 yields poolSize - 1. -/
theorem discrete_quantize_clamps :
    ∀ (x : ℚ) (n : ℕ), 1 ≤ n →
      (x ≤ 1 / 2 → discrete_index x n = 0)
      ∧ (1 ≤ x → discrete_index x n = (n : ℤ) - 1) := by
  intro x n hn
  constructor
  · intro hx
    have hc : max (1 / 2 : ℚ) (min 1 x) = 1 / 2 := by
      rw [min_eq_right (le_trans hx (by norm_num))]
      exact max_eq_left hx
    have e : (0 : ℚ) + (max (1 / 2 : ℚ) (min 1 x) - 1 / 2) * (((n : ℚ) - 1) - 0) / (1 - 1 / 2)
        = ((0 : ℤ) : ℚ) := by
      rw [hc]; ring
    unfold discrete_index map_range_total
    rw [e, pyRound_intCast]
  · intro hx
    have hc : max (1 / 2 : ℚ) (min 1 x) = 1 := by
      rw [min_eq_left hx]
      exact max_eq_right (by norm_num)
    have e : (0 : ℚ) + (max (1 / 2 : ℚ) (min 1 x) - 1 / 2) * (((n : ℚ) - 1) - 0) / (1 - 1 / 2)
        = (((n : ℤ) - 1 : ℤ) : ℚ) := by
      rw [hc]; push_cast; ring
    unfold discrete_index map_range_total
    rw [e, pyRound_intCast]

/-- C2 amended witness: with a pool of 8, position 0.4 (left of the region)
quantizes to index 0 and position 1.2 (right of the region) to index 7. -/
theorem discrete_quantize_clamps_witness :
    discrete_index (2 / 5) 8 = 0 ∧ discrete_index (6 / 5) 8 = (8 : ℤ) - 1 :=
  ⟨(discrete_quantize_clamps (2 / 5) 8 (by norm_num)).1 (by norm_num),
   (discrete_quantize_clamps (6 / 5) 8 (by norm_num)).2 (by norm_num)⟩


lemma discrete_index_bounds (x : ℚ) (n : ℕ) (hn : 1 ≤ n) :
    0 ≤ discrete_index x n ∧ discrete_index x n ≤ (n : ℤ) - 1 := by
  have hm : (0 : ℚ) ≤ (n : ℚ) - 1 := by
    have h1 : (1 : ℚ) ≤ (n : ℚ) := by exact_mod_cast hn
    linarith
  have hcl1 : (1 / 2 : ℚ) ≤ max (1 / 2) (min 1 x) := le_max_left _ _
  have hcl2 : max (1 / 2 : ℚ) (min 1 x) ≤ 1 := max_le (by norm_num) (min_le_left _ _)
  have e : map_range_total x (1 / 2) 1 0 ((n : ℚ) - 1)
      = (max (1 / 2 : ℚ) (min 1 x) - 1 / 2) * ((n : ℚ) - 1) * 2 := by
    unfold map_range_total
    ring
  have hq0 : 0 ≤ map_range_total x (1 / 2) 1 0 ((n : ℚ) - 1) := by
    rw [e]
    exact mul_nonneg (mul_nonneg (by linarith) hm) (by norm_num)
  have hqm : map_range_total x (1 / 2) 1 0 ((n : ℚ) - 1) ≤ (((n : ℤ) - 1 : ℤ) : ℚ) := by
    rw [e]
    push_cast
    nlinarith [mul_nonneg (show (0 : ℚ) ≤ 1 - max (1 / 2 : ℚ) (min 1 x) by linarith) hm]
  constructor
  · unfold discrete_index
    exact pyRound_nonneg hq0
  · unfold discrete_index
    exact pyRound_le hqm

lemma py_get_isSome_of_bounds {pool : List ℚ} {i : ℤ}
    (h0 : 0 ≤ i) (h1 : i ≤ (pool.length : ℤ) - 1) : (py_get pool i).isSome = true := by
  have hnot : ¬ i < 0 := not_lt.mpr h0
  have hlt : i.toNat < pool.length := by omega
  simp only [py_get, hnot, if_false, if_pos h0]
  rw [List.get?_eq_get hlt]
  rfl

/-- C6 amended: with two hands, the hand with the larger palmCenter.x is the
pitch hand and drives pitch via its palmCenter.x (rightmostX is present in
the hand data but never read by the engine); the other hand drives volume
via 1 - palmCenter.y mapped from [0, 0.5] to [0, 1]; when the two x
coordinates are equal the SECOND hand in the input list becomes the pitch
hand; for hands with distinct x, reversing the input list produces an
identical resulting engine state. -/
theorem two_hand_role_assignment :
    ∀ (s : EngineState) (h0 h1 : Hand),
      (h0.palm_x ≠ h1.palm_x →
        update_from_vision s (some [h0, h1]) = update_from_vision s (some [h1, h0]))
      ∧ (h1.palm_x < h0.palm_x → assign_roles h0 h1 = (h0, h1))
      ∧ (h0.palm_x = h1.palm_x → assign_roles h0 h1 = (h1, h0))
      ∧ ((update_from_vision s (some [h0, h1])).target_volume
          = map_range_total (1 - (assign_roles h0 h1).2.palm_y) 0 (1 / 2) 0 1)
      ∧ (s.glide_mode = true →
          (update_from_vision s (some [h0, h1])).target_pitch
            = map_range_total (assign_roles h0 h1).1.palm_x (1 / 2) 1
                s.pitch_range_lo s.pitch_range_hi) := by
  intro s h0 h1
  refine ⟨?_, ?_, ?_, ?_, ?_⟩
  · intro hne
    have hr : assign_roles h1 h0 = assign_roles h0 h1 := by
      unfold assign_roles
      rcases lt_trichotomy h0.palm_x h1.palm_x with h | h | h
      · rw [if_pos h, if_neg (not_lt.mpr (le_of_lt h))]
      · exact absurd h hne
      · rw [if_neg (not_lt.mpr (le_of_lt h)), if_pos h]
    cases s with
    | mk pc cp cv tp tv notes nh pl gm sk oR lo hi pool hd =>
      cases gm with
      | true =>
        dsimp only [update_from_vision]
        rw [hr]
        simp
      | false =>
        dsimp only [update_from_vision]
        rw [hr]
        rcases pool with _ | ⟨p, ps⟩
        · simp [py_get]
        · have hb := discrete_index_bounds (assign_roles h0 h1).1.palm_x (p :: ps).length
            (by simp)
          have hs := py_get_isSome_of_bounds hb.1 hb.2
          obtain ⟨v, hv⟩ := Option.isSome_iff_exists.mp hs
          simp only [List.length_cons] at hv
          simp [hv]
  · intro h
    unfold assign_roles
    rw [if_pos h]
  · intro h
    unfold assign_roles
    rw [if_neg (by rw [h]; exact lt_irrefl _)]
  · rfl
  · intro hg
    cases s with
    | mk pc cp cv tp tv notes nh pl gm sk oR lo hi pool hd =>
      cases gm with
      | true => rfl
      | false => exact absurd hg (by simp)

/-- C6 counterexample: the claim says an equal-x tie makes the FIRST hand
the pitch hand and that pitch is driven by rightmostX.  In the code the tie
branch picks the second hand (so target volume comes from the first hand's
y: 4/5, not the 2/5 the claim would give), and pitch is driven by the palm
x (0.7 maps to 69.6), not by rightmostX (0.95 would map to 81.6). -/
theorem two_hand_tie_counterexample :
    (assign_roles ⟨3/5, 3/5, 3/5⟩ ⟨3/5, 4/5, 4/5⟩).1 = (⟨3/5, 4/5, 4/5⟩ : Hand)
    ∧ (⟨3/5, 4/5, 4/5⟩ : Hand) ≠ (⟨3/5, 3/5, 3/5⟩ : Hand)
    ∧ (update_from_vision sampleState
        (some [⟨3/5, 3/5, 3/5⟩, ⟨3/5, 4/5, 4/5⟩])).target_volume = 4/5
    ∧ (4/5 : ℚ) ≠ 2/5
    ∧ (update_from_vision sampleState
        (some [⟨7/10, 3/5, 19/20⟩, ⟨3/10, 4/5, 1/2⟩])).target_pitch = 348/5
    ∧ map_range_total (19/20) (1/2) 1 sampleState.pitch_range_lo sampleState.pitch_range_hi
        = 408/5
    ∧ (348/5 : ℚ) ≠ 408/5 := by
  refine ⟨?_, ?_, ?_, ?_, ?_, ?_, ?_⟩
  · norm_num [assign_roles]
  · intro h
    have := congrArg Hand.palm_y h
    norm_num at this
  · norm_num [update_from_vision, assign_roles, sampleState, map_range_total, min_def, max_def]
  · norm_num
  · norm_num [update_from_vision, assign_roles, sampleState, map_range_total, min_def, max_def]
  · norm_num [sampleState, map_range_total, min_def, max_def]
  · norm_num

/-- C6 amended witness: two hands with distinct palm x (0.7 and 0.3) in
glide mode: reversing the list gives the same state, and the pitch target
comes from the role-assigned pitch hand's palm x. -/
theorem two_hand_role_assignment_witness :
    update_from_vision sampleState (some [⟨7/10, 3/5, 19/20⟩, ⟨3/10, 4/5, 1/2⟩])
      = update_from_vision sampleState (some [⟨3/10, 4/5, 1/2⟩, ⟨7/10, 3/5, 19/20⟩])
    ∧ (update_from_vision sampleState
        (some [⟨7/10, 3/5, 19/20⟩, ⟨3/10, 4/5, 1/2⟩])).target_pitch
        = map_range_total (assign_roles ⟨7/10, 3/5, 19/20⟩ ⟨3/10, 4/5, 1/2⟩).1.palm_x
            (1/2) 1 sampleState.pitch_range_lo sampleState.pitch_range_hi :=
  ⟨(two_hand_role_assignment sampleState ⟨7/10, 3/5, 19/20⟩ ⟨3/10, 4/5, 1/2⟩).1
      (by norm_num),
   (two_hand_role_assignment sampleState ⟨7/10, 3/5, 19/20⟩ ⟨3/10, 4/5, 1/2⟩).2.2.2.2
      (by rfl)⟩

/-- C10: for every position x (clamping handles values outside [0, 1]) and
every non-empty pitch pool, the Discrete-mode index
round(mapRange(x, 0.5, 1.0, 0, n-1)) lies in [0, n-1], so the subsequent
Python pool access pool[index] never raises IndexError. -/
theorem discrete_pool_access_safe :
    ∀ (x : ℚ) (pool : List ℚ), pool ≠ [] →
      0 ≤ discrete_index x pool.length
      ∧ discrete_index x pool.length ≤ (pool.length : ℤ) - 1
      ∧ (py_get pool (discrete_index x pool.length)).isSome = true := by
  intro x pool hne
  have hn : 1 ≤ pool.length := List.length_pos.mpr hne
  have hb := discrete_index_bounds x pool.length hn
  exact ⟨hb.1, hb.2, py_get_isSome_of_bounds hb.1 hb.2⟩

/-- C10 witness: position 1.3 (outside [0, 1]) with the 25-entry chromatic
pool: the index is in bounds and the access succeeds. -/
theorem discrete_pool_access_safe_witness :
    0 ≤ discrete_index (13/10) (generate_pitch_pool_chromatic 60 2).length
    ∧ discrete_index (13/10) (generate_pitch_pool_chromatic 60 2).length
        ≤ ((generate_pitch_pool_chromatic 60 2).length : ℤ) - 1
    ∧ (py_get (generate_pitch_pool_chromatic 60 2)
        (discrete_index (13/10) (generate_pitch_pool_chromatic 60 2).length)).isSome = true :=
  discrete_pool_access_safe (13/10) (generate_pitch_pool_chromatic 60 2)
    (by simp [generate_pitch_pool_chromatic])

lemma update_events_no_start (notes : List ℕ) (p v : ℚ) :
    (update_events notes p v).any isStartEv = false := by
  induction notes with
  | nil => rfl
  | cons h t ih => simp [update_events, isStartEv, ih]

lemma update_events_no_end (notes : List ℕ) (p v : ℚ) :
    (update_events notes p v).any isEndEv = false := by
  induction notes with
  | nil => rfl
  | cons h t ih => simp [update_events, isEndEv, ih]

lemma map_endNote_no_start (notes : List ℕ) :
    (notes.map AudioEvent.endNote).any isStartEv = false := by
  induction notes with
  | nil => rfl
  | cons h t ih => simp [isStartEv, ih]

lemma map_endNote_any_end (notes : List ℕ) (h : notes ≠ []) :
    (notes.map AudioEvent.endNote).any isEndEv = true := by
  cases notes with
  | nil => exact absurd rfl h
  | cons a t => simp [isEndEv]

lemma take_map_endNote_no_start (k : ℕ) (notes : List ℕ) :
    (List.take k (notes.map AudioEvent.endNote)).any isStartEv = false := by
  rw [← List.map_take]
  exact map_endNote_no_start _

lemma map_startNote_any_start (notes : List ℕ) (p v : ℚ) (h : notes ≠ []) :
    (notes.map (fun n => AudioEvent.startNote n p v)).any isStartEv = true := by
  cases notes with
  | nil => exact absurd rfl h
  | cons a t => simp [isStartEv]

lemma stop_events_class (fe : Option ℕ) (s : EngineState)
    (hne : s.current_notes ≠ []) (hp : s.is_note_playing = true) :
    (_stop_current_note fe s).2.any isStartEv = false
    ∧ (_stop_current_note fe s).2.any isEndEv = true
    ∧ (_stop_current_note fe s).1.is_note_playing = false
    ∧ (_stop_current_note fe s).1.current_notes = [] := by
  unfold _stop_current_note
  rw [if_pos ⟨hne, hp⟩]
  cases fe with
  | none =>
    dsimp only
    refine ⟨?_, ?_, rfl, rfl⟩
    · simp [List.any_append, map_endNote_no_start, isStartEv]
    · simp [List.any_append, map_endNote_any_end _ hne]
  | some k =>
    dsimp only
    by_cases hk : k < s.current_notes.length
    · rw [if_pos hk]
      refine ⟨?_, ?_, rfl, rfl⟩
      · simp [List.any_append, take_map_endNote_no_start, isStartEv]
      · simp [List.any_append, isEndEv]
    · rw [if_neg hk]
      refine ⟨?_, ?_, rfl, rfl⟩
      · simp [List.any_append, map_endNote_no_start, isStartEv]
      · simp [List.any_append, map_endNote_any_end _ hne]

lemma stop_marker (fe : Option ℕ) (s : EngineState)
    (hne : s.current_notes ≠ []) (hp : s.is_note_playing = true) :
    tickMarker (_stop_current_note fe s).2 = some Marker.E
    ∧ (_stop_current_note fe s).1.is_note_playing = false
    ∧ (_stop_current_note fe s).1.current_notes = [] := by
  have hc := stop_events_class fe s hne hp
  exact ⟨by simp [tickMarker, hc.1, hc.2.1], hc.2.2.1, hc.2.2.2⟩

lemma start_marker (s : EngineState) :
    tickMarker (_start_continuous_note s).2 = some Marker.S
    ∧ (_start_continuous_note s).1.is_note_playing = true := by
  constructor
  · unfold _start_continuous_note
    have hr : List.range num_amplified_notes = [0, 1, 2] := rfl
    rw [hr]
    simp [tickMarker, isStartEv]
  · rfl

lemma update_marker (fu : Option (ℕ × Bool)) (fe : Option ℕ) (s : EngineState)
    (hp : s.is_note_playing = true) :
    (tickMarker (_update_note_parameters fu fe s).2 = none
      ∧ (_update_note_parameters fu fe s).1.is_note_playing = true)
    ∨ (tickMarker (_update_note_parameters fu fe s).2 = some Marker.E
      ∧ (_update_note_parameters fu fe s).1.is_note_playing = false) := by
  unfold _update_note_parameters
  by_cases hne : s.current_notes ≠ [] ∧ s.is_note_playing = true
  · rw [if_pos hne]
    cases fu with
    | none =>
      left
      refine ⟨?_, hp⟩
      simp [tickMarker, update_events_no_start, update_events_no_end]
    | some kk =>
      obtain ⟨k, st⟩ := kk
      dsimp only
      by_cases hk : k < s.current_notes.length
      · rw [if_pos hk]
        right
        have hc := stop_events_class fe s hne.1 hne.2
        refine ⟨?_, hc.2.2.1⟩
        simp [tickMarker, List.any_append, update_events_no_start, update_events_no_end,
          isStartEv, isEndEv, hc.1, hc.2.1]
      · rw [if_neg hk]
        left
        refine ⟨?_, hp⟩
        simp [tickMarker, update_events_no_start, update_events_no_end]
  · rw [if_neg hne]
    left
    exact ⟨rfl, hp⟩

lemma loop_tick_marker_spec (fu : Option (ℕ × Bool)) (fe : Option ℕ) (s : EngineState) :
    (tickMarker (loop_tick fu fe s).2 = some Marker.S
      ∧ s.is_note_playing = false ∧ (loop_tick fu fe s).1.is_note_playing = true)
    ∨ (tickMarker (loop_tick fu fe s).2 = some Marker.E
      ∧ s.is_note_playing = true ∧ (loop_tick fu fe s).1.is_note_playing = false)
    ∨ (tickMarker (loop_tick fu fe s).2 = none
      ∧ (loop_tick fu fe s).1.is_note_playing = s.is_note_playing) := by
  have hpl : (tick_smoothed s).is_note_playing = s.is_note_playing := rfl
  unfold loop_tick
  by_cases hg : should_play (tick_smoothed s).hands_detected (tick_smoothed s).current_volume
      = true
  · rw [if_pos hg]
    by_cases hp : (tick_smoothed s).is_note_playing = false
    · rw [if_pos hp]
      have hs := start_marker (tick_smoothed s)
      exact Or.inl ⟨hs.1, hpl ▸ hp, hs.2⟩
    · rw [if_neg hp]
      have hp2 : (tick_smoothed s).is_note_playing = true := by
        revert hp
        cases (tick_smoothed s).is_note_playing <;> simp
      rcases update_marker fu fe (tick_smoothed s) hp2 with ⟨hm, hst⟩ | ⟨hm, hst⟩
      · exact Or.inr (Or.inr ⟨hm, by rw [hst, ← hpl, hp2]⟩)
      · exact Or.inr (Or.inl ⟨hm, hpl ▸ hp2, hst⟩)
  · rw [if_neg hg]
    by_cases hp : (tick_smoothed s).is_note_playing = true
    · rw [if_pos hp]
      by_cases hne : (tick_smoothed s).current_notes ≠ []
      · have hst := stop_marker fe (tick_smoothed s) hne hp
        exact Or.inr (Or.inl ⟨hst.1, hpl ▸ hp, hst.2.1⟩)
      · have hstop : _stop_current_note fe (tick_smoothed s) = (tick_smoothed s, []) := by
          unfold _stop_current_note
          rw [if_neg (by
            intro hcon
            exact hne hcon.1)]
        rw [hstop]
        exact Or.inr (Or.inr ⟨rfl, hpl⟩)
    · rw [if_neg hp]
      exact Or.inr (Or.inr ⟨rfl, hpl⟩)

lemma alternates_loop_run (s : EngineState) (ts : List TickSpec) :
    alternates s.is_note_playing (markers (loop_run s ts).2) = true := by
  induction ts generalizing s with
  | nil => cases s.is_note_playing <;> rfl
  | cons t ts ih =>
    have hrun : (loop_run s (t :: ts)).2
        = (loop_step t s).2 :: (loop_run (loop_step t s).1 ts).2 := rfl
    have hw : (apply_write t.write s).is_note_playing = s.is_note_playing := by
      cases hwr : t.write <;> rfl
    have hls : loop_step t s = loop_tick t.failUpd t.failEnd (apply_write t.write s) := rfl
    rw [hrun]
    unfold markers
    rw [List.filterMap_cons]
    rcases loop_tick_marker_spec t.failUpd t.failEnd (apply_write t.write s)
        with ⟨hm, hpre, hpost⟩ | ⟨hm, hpre, hpost⟩ | ⟨hm, hpost⟩
    · rw [hls, hm]
      have hsp : s.is_note_playing = false := by rw [← hw]; exact hpre
      rw [hsp]
      show alternates true (List.filterMap tickMarker (loop_run (loop_step t s).1 ts).2) = true
      have h2 := ih (loop_step t s).1
      rw [hls, hpost] at h2
      rw [hls]
      exact h2
    · rw [hls, hm]
      have hsp : s.is_note_playing = true := by rw [← hw]; exact hpre
      rw [hsp]
      show alternates false (List.filterMap tickMarker (loop_run (loop_step t s).1 ts).2) = true
      have h2 := ih (loop_step t s).1
      rw [hls, hpost] at h2
      rw [hls]
      exact h2
    · rw [hls, hm]
      dsimp only
      have h2 := ih (loop_step t s).1
      rw [hls, hpost, hw] at h2
      unfold markers at h2
      exact h2

lemma update_events_no_momentary (notes : List ℕ) (p v : ℚ) :
    ∀ e ∈ update_events notes p v, isMomentaryEv e = false := by
  induction notes with
  | nil => intro e he; simp [update_events] at he
  | cons h t ih =>
    intro e he
    simp only [update_events, List.mem_cons] at he
    rcases he with rfl | rfl | he
    · rfl
    · rfl
    · exact ih e he

lemma stop_no_momentary (fe : Option ℕ) (s : EngineState) :
    ∀ e ∈ (_stop_current_note fe s).2, isMomentaryEv e = false := by
  unfold _stop_current_note
  intro e he
  split at he
  · cases fe with
    | none =>
      simp only [List.mem_append, List.mem_map, List.mem_singleton] at he
      rcases he with ⟨n, _, rfl⟩ | rfl
      · rfl
      · rfl
    | some k =>
      dsimp only at he
      split at he
      · simp only [List.mem_append, List.mem_map, List.mem_singleton] at he
        rcases he with ⟨n, _, rfl⟩ | rfl
        · rfl
        · rfl
      · simp only [List.mem_append, List.mem_map, List.mem_singleton] at he
        rcases he with ⟨n, _, rfl⟩ | rfl
        · rfl
        · rfl
  · simp at he

lemma start_no_momentary (s : EngineState) :
    ∀ e ∈ (_start_continuous_note s).2, isMomentaryEv e = false := by
  unfold _start_continuous_note
  intro e he
  simp only [List.mem_map] at he
  obtain ⟨n, _, rfl⟩ := he
  rfl

lemma update_no_momentary (fu : Option (ℕ × Bool)) (fe : Option ℕ) (s : EngineState) :
    ∀ e ∈ (_update_note_parameters fu fe s).2, isMomentaryEv e = false := by
  unfold _update_note_parameters
  intro e he
  split at he
  · cases fu with
    | none => exact update_events_no_momentary _ _ _ e he
    | some kk =>
      obtain ⟨k, st⟩ := kk
      dsimp only at he
      split at he
      · simp only [List.mem_append] at he
        rcases he with (he | he) | he
        · exact update_events_no_momentary _ _ _ e he
        · revert he
          split
          · intro he
            simp only [List.mem_singleton] at he
            subst he
            rfl
          · intro he
            simp at he
        · exact stop_no_momentary fe s e he
      · exact update_events_no_momentary _ _ _ e he
  · simp at he

lemma tick_no_momentary (fu : Option (ℕ × Bool)) (fe : Option ℕ) (s : EngineState) :
    ∀ e ∈ (loop_tick fu fe s).2, isMomentaryEv e = false := by
  unfold loop_tick
  intro e he
  split at he
  · split at he
    · exact start_no_momentary _ e he
    · exact update_no_momentary _ _ _ e he
  · split at he
    · exact stop_no_momentary _ _ e he
    · simp at he

lemma tick_smoothed_glide (s : EngineState) (b : Bool) :
    tick_smoothed { s with glide_mode := b } = { tick_smoothed s with glide_mode := b } := rfl

lemma apply_write_glide (w : Option TickInput) (s : EngineState) (b : Bool) :
    apply_write w { s with glide_mode := b } = { apply_write w s with glide_mode := b } := by
  cases w <;> rfl

lemma start_glide (s : EngineState) (b : Bool) :
    _start_continuous_note { s with glide_mode := b }
      = ({ (_start_continuous_note s).1 with glide_mode := b },
         (_start_continuous_note s).2) := rfl

lemma stop_glide (fe : Option ℕ) (s : EngineState) (b : Bool) :
    _stop_current_note fe { s with glide_mode := b }
      = ({ (_stop_current_note fe s).1 with glide_mode := b },
         (_stop_current_note fe s).2) := by
  unfold _stop_current_note
  dsimp only
  by_cases h : s.current_notes ≠ [] ∧ s.is_note_playing = true
  · rw [if_pos h, if_pos h]
    cases fe with
    | none => rfl
    | some k =>
      dsimp only
      by_cases hk : k < s.current_notes.length
      · rw [if_pos hk, if_pos hk]
      · rw [if_neg hk, if_neg hk]
  · rw [if_neg h, if_neg h]

lemma update_glide (fu : Option (ℕ × Bool)) (fe : Option ℕ) (s : EngineState) (b : Bool) :
    _update_note_parameters fu fe { s with glide_mode := b }
      = ({ (_update_note_parameters fu fe s).1 with glide_mode := b },
         (_update_note_parameters fu fe s).2) := by
  unfold _update_note_parameters
  dsimp only
  by_cases h : s.current_notes ≠ [] ∧ s.is_note_playing = true
  · rw [if_pos h, if_pos h]
    cases fu with
    | none => rfl
    | some kk =>
      obtain ⟨k, st⟩ := kk
      dsimp only
      by_cases hk : k < s.current_notes.length
      · rw [if_pos hk, if_pos hk, stop_glide]
      · rw [if_neg hk, if_neg hk]
  · rw [if_neg h, if_neg h]

lemma loop_tick_glide (fu : Option (ℕ × Bool)) (fe : Option ℕ) (s : EngineState) (b : Bool) :
    loop_tick fu fe { s with glide_mode := b }
      = ({ (loop_tick fu fe s).1 with glide_mode := b }, (loop_tick fu fe s).2) := by
  unfold loop_tick
  rw [tick_smoothed_glide]
  dsimp only
  by_cases hg : should_play (tick_smoothed s).hands_detected (tick_smoothed s).current_volume
      = true
  · rw [if_pos hg, if_pos hg]
    by_cases hp : (tick_smoothed s).is_note_playing = false
    · rw [if_pos hp, if_pos hp, start_glide]
    · rw [if_neg hp, if_neg hp, update_glide]
  · rw [if_neg hg, if_neg hg]
    by_cases hp : (tick_smoothed s).is_note_playing = true
    · rw [if_pos hp, if_pos hp, stop_glide]
    · rw [if_neg hp, if_neg hp]

lemma loop_step_glide (t : TickSpec) (s : EngineState) (b : Bool) :
    loop_step t { s with glide_mode := b }
      = ({ (loop_step t s).1 with glide_mode := b }, (loop_step t s).2) := by
  unfold loop_step
  rw [apply_write_glide, loop_tick_glide]

lemma loop_run_glide (ts : List TickSpec) : ∀ (s : EngineState) (b : Bool),
    loop_run { s with glide_mode := b } ts
      = ({ (loop_run s ts).1 with glide_mode := b }, (loop_run s ts).2) := by
  induction ts with
  | nil => intro s b; rfl
  | cons t ts ih =>
    intro s b
    show (let r := loop_step t { s with glide_mode := b };
          let rest := loop_run r.1 ts; (rest.1, r.2 :: rest.2))
        = ({ (loop_run s (t :: ts)).1 with glide_mode := b }, (loop_run s (t :: ts)).2)
    rw [loop_step_glide]
    dsimp only
    rw [ih]
    rfl

/-- C1: along every execution of the control loop, startNote and endNote
bursts strictly alternate (never two start bursts without an intervening
end burst), and: a tick in the Silent state with the gate true issues
exactly num_amplified_notes startNote calls and moves to Sounding; a tick
in Sounding with the gate true issues the changePitch/changeVolume pair to
every held voice; a tick in Sounding with the gate false ends every held
voice, clears the voice list and returns to Silent. -/
theorem glide_note_lifecycle :
    (∀ (s : EngineState) (ts : List TickSpec),
        alternates s.is_note_playing (markers (loop_run s ts).2) = true)
    ∧ (∀ (s : EngineState) (fu : Option (ℕ × Bool)) (fe : Option ℕ),
        s.is_note_playing = false →
        should_play (tick_smoothed s).hands_detected (tick_smoothed s).current_volume = true →
        (loop_tick fu fe s).2
            = ((List.range num_amplified_notes).map
                (fun i => (tick_smoothed s).next_handle + i)).map
                (fun h => AudioEvent.startNote h (tick_smoothed s).current_pitch
                  (tick_smoothed s).current_volume)
          ∧ (loop_tick fu fe s).2.countP isStartEv = num_amplified_notes
          ∧ (loop_tick fu fe s).1.is_note_playing = true)
    ∧ (∀ (s : EngineState) (fe : Option ℕ),
        s.is_note_playing = true →
        should_play (tick_smoothed s).hands_detected (tick_smoothed s).current_volume = true →
        (loop_tick none fe s).2
            = update_events s.current_notes (tick_smoothed s).current_pitch
                (tick_smoothed s).current_volume
          ∧ (loop_tick none fe s).1.is_note_playing = true
          ∧ (loop_tick none fe s).1.current_notes = s.current_notes)
    ∧ (∀ (s : EngineState) (fu : Option (ℕ × Bool)),
        s.is_note_playing = true → s.current_notes ≠ [] →
        should_play (tick_smoothed s).hands_detected (tick_smoothed s).current_volume = false →
        (loop_tick fu none s).2
            = s.current_notes.map AudioEvent.endNote ++ [AudioEvent.midiCC 64 0]
          ∧ (loop_tick fu none s).1.is_note_playing = false
          ∧ (loop_tick fu none s).1.current_notes = []) := by
  refine ⟨alternates_loop_run, ?_, ?_, ?_⟩
  · intro s fu fe hp hg
    unfold loop_tick
    rw [if_pos hg, if_pos (show (tick_smoothed s).is_note_playing = false from hp)]
    refine ⟨rfl, ?_, rfl⟩
    show ((_start_continuous_note (tick_smoothed s)).2.countP isStartEv) = num_amplified_notes
    unfold _start_continuous_note
    dsimp only
    rw [show List.range num_amplified_notes = [0, 1, 2] from rfl]
    simp [isStartEv, num_amplified_notes]
  · intro s fe hp hg
    unfold loop_tick
    rw [if_pos hg, if_neg (show ¬ (tick_smoothed s).is_note_playing = false by
      rw [show (tick_smoothed s).is_note_playing = s.is_note_playing from rfl, hp]
      simp)]
    unfold _update_note_parameters
    by_cases hne : (tick_smoothed s).current_notes ≠ [] ∧ (tick_smoothed s).is_note_playing = true
    · rw [if_pos hne]
      exact ⟨rfl, hp, rfl⟩
    · rw [if_neg hne]
      have hnil : s.current_notes = [] := by
        by_contra hc
        exact hne ⟨hc, hp⟩
      refine ⟨?_, hp, rfl⟩
      rw [hnil]
      rfl
  · intro s fu hp hne hg
    unfold loop_tick
    rw [if_neg (by rw [hg]; simp),
      if_pos (show (tick_smoothed s).is_note_playing = true from hp)]
    unfold _stop_current_note
    rw [if_pos (show (tick_smoothed s).current_notes ≠ []
          ∧ (tick_smoothed s).is_note_playing = true from ⟨hne, hp⟩)]
    exact ⟨rfl, rfl, rfl⟩

/-- C1 witness: from the idle sample state with hands detected and target
volume 1, one tick issues exactly the burst of 3 startNote events and
enters the Sounding state. -/
theorem glide_note_lifecycle_witness :
    (loop_tick none none sGate).2
        = ((List.range num_amplified_notes).map
            (fun i => (tick_smoothed sGate).next_handle + i)).map
            (fun h => AudioEvent.startNote h (tick_smoothed sGate).current_pitch
              (tick_smoothed sGate).current_volume)
      ∧ (loop_tick none none sGate).2.countP isStartEv = num_amplified_notes
      ∧ (loop_tick none none sGate).1.is_note_playing = true :=
  glide_note_lifecycle.2.1 sGate none none rfl
    (by norm_num [should_play, tick_smoothed, _smooth_value, volume_smoothing,
      min_volume_threshold, sGate, sampleState])

/-- C7: if a backend update raises while Sounding (at any voice, in either
the pitch or the volume call), the exception is caught (the modelled method
is total: nothing propagates), the engine transitions to Silent — playing
flag reset and voice list cleared even if end calls also fail — and the
emitted events end every held voice individually or fall back to a blanket
endAllNotes, so no voice is left sounding. -/
theorem update_failure_forces_silent :
    ∀ (s : EngineState) (k : ℕ) (st : Bool) (fe : Option ℕ),
      s.is_note_playing = true → s.current_notes ≠ [] → k < s.current_notes.length →
      (_update_note_parameters (some (k, st)) fe s).1.is_note_playing = false
      ∧ (_update_note_parameters (some (k, st)) fe s).1.current_notes = []
      ∧ ((∀ h ∈ s.current_notes,
            AudioEvent.endNote h ∈ (_update_note_parameters (some (k, st)) fe s).2)
         ∨ AudioEvent.endAllNotes ∈ (_update_note_parameters (some (k, st)) fe s).2) := by
  intro s k st fe hp hne hk
  have hc := stop_events_class fe s hne hp
  unfold _update_note_parameters
  rw [if_pos ⟨hne, hp⟩]
  dsimp only
  rw [if_pos hk]
  refine ⟨hc.2.2.1, hc.2.2.2, ?_⟩
  cases fe with
  | none =>
    left
    intro h hmem
    have hin : AudioEvent.endNote h ∈ (_stop_current_note none s).2 := by
      unfold _stop_current_note
      rw [if_pos ⟨hne, hp⟩]
      exact List.mem_append_left _ (List.mem_map_of_mem _ hmem)
    exact List.mem_append_right _ hin
  | some j =>
    by_cases hj : j < s.current_notes.length
    · right
      have hin : AudioEvent.endAllNotes ∈ (_stop_current_note (some j) s).2 := by
        unfold _stop_current_note
        rw [if_pos ⟨hne, hp⟩]
        dsimp only
        rw [if_pos hj]
        exact List.mem_append_right _ (by simp)
      exact List.mem_append_right _ hin
    · left
      intro h hmem
      have hin : AudioEvent.endNote h ∈ (_stop_current_note (some j) s).2 := by
        unfold _stop_current_note
        rw [if_pos ⟨hne, hp⟩]
        dsimp only
        rw [if_neg hj]
        exact List.mem_append_left _ (List.mem_map_of_mem _ hmem)
      exact List.mem_append_right _ hin

/-- C7 witness: a sounding state with voices [0, 1, 2] whose second update
raises: the state is silenced and every voice is ended. -/
theorem update_failure_forces_silent_witness :
    (_update_note_parameters (some (1, true)) none sSound).1.is_note_playing = false
    ∧ (_update_note_parameters (some (1, true)) none sSound).1.current_notes = []
    ∧ ((∀ h ∈ sSound.current_notes,
          AudioEvent.endNote h ∈ (_update_note_parameters (some (1, true)) none sSound).2)
       ∨ AudioEvent.endAllNotes ∈ (_update_note_parameters (some (1, true)) none sSound).2) :=
  update_failure_forces_silent sSound 1 true none rfl
    (by simp [sSound, sGate, sampleState])
    (by norm_num [sSound, sGate, sampleState])

/-- C3 amended: the audio loop never fires a momentary note — on every run
the trace contains zero playMomentary events — and the loop's trace does
not depend on the mode flag at all: Discrete mode differs from Glide only
in how update_from_vision computes the pitch target.  There is no
noteCooldownSeconds, lastNoteIndex or trigger-edge logic in the code. -/
theorem discrete_mode_no_momentary :
    ∀ (s : EngineState) (ts : List TickSpec) (b : Bool),
      countMomentary (loop_run s ts).2 = 0
      ∧ (loop_run { s with glide_mode := b } ts).2 = (loop_run s ts).2 := by
  intro s ts b
  constructor
  · induction ts generalizing s with
    | nil => rfl
    | cons t ts ih =>
      show countMomentary ((loop_step t s).2 :: (loop_run (loop_step t s).1 ts).2) = 0
      simp only [countMomentary, List.map_cons, List.sum_cons]
      have h1 : (loop_step t s).2.countP (fun e => isMomentaryEv e) = 0 := by
        refine List.countP_eq_zero.mpr ?_
        intro a ha
        simp [tick_no_momentary t.failUpd t.failEnd (apply_write t.write s) a ha]
      have h2 := ih (loop_step t s).1
      simp only [countMomentary] at h2
      rw [h1, h2]
  · rw [loop_run_glide]

/-- C3 counterexample: the claim's scenario — Discrete mode, gate held,
quantized-index changes at successive ticks with a later change after the
supposed cooldown — produces zero playMomentaryNote fires (the claim says
the first and last events each fire).  What actually happens is a single
continuous startNote burst followed by per-tick updates. -/
theorem discrete_momentary_counterexample :
    countMomentary (loop_run sampleStateDiscrete discTicks).2 = 0
    ∧ markers (loop_run sampleStateDiscrete discTicks).2 = [Marker.S] := by
  norm_num [loop_run, loop_step, loop_tick, apply_write, tick_smoothed, _smooth_value,
    should_play, min_volume_threshold, pitch_smoothing, volume_smoothing,
    _start_continuous_note, _update_note_parameters, _stop_current_note, update_events,
    num_amplified_notes, sampleStateDiscrete, sampleState, discTicks, markers, tickMarker,
    isStartEv, isEndEv, isMomentaryEv, countMomentary, List.range_succ, ne_eq,
    List.cons_ne_nil, List.filterMap_cons, List.filterMap_nil, List.any_cons, List.any_nil]

end Veloma
